import Mathlib

/-!
Verification development for the sshm interactive remote-file-transfer
subsystem.  The Go source is shallowly embedded: pure Go functions become
Lean functions, the Bubble Tea update loops become explicit transition
functions on state records, and process/channel behaviour is modelled as
explicit interleaving traces.  Machine integers that cannot overflow in the
modelled scenarios are embedded as `Int`/`Nat`; Go `len` on strings (a byte
count) is embedded as `goLen` (UTF-8 byte size).
-/

/-! ## Go string and path helpers (models of the Go standard library
functions used by the transfer code: `strings.HasPrefix`, `strings.Contains`,
`strings.ToLower`, `strings.ReplaceAll` with a single-character pattern,
`filepath.Clean`, `filepath.Dir`, `filepath.Base`, `filepath.Join`). -/

/-- Go `len(s)` on a string counts bytes. -/
def goLen (s : String) : Nat := s.utf8ByteSize

/-- List-level prefix test (`strings.HasPrefix` on the rune sequences). -/
def preL : List Char → List Char → Bool
  | _, [] => true
  | [], _ :: _ => false
  | a :: as, b :: bs => a = b && preL as bs

/-- Go `strings.HasPrefix s pre`. -/
def goHasPre (s pre : String) : Bool := preL s.data pre.data

/-- List-level contiguous-substring test (`strings.Contains` on rune
sequences). -/
def subL : List Char → List Char → Bool
  | [], p => p.isEmpty
  | a :: as, p => preL (a :: as) p || subL as p

/-- Go `strings.Contains s sub`. -/
def goContains (s sub : String) : Bool := subL s.data sub.data

/-- Go `strings.ToLower` (ASCII case folding; the queries and names in the
modelled flows are ASCII, matching the browser's printable-ASCII input
filter). -/
def goToLower (s : String) : String := ⟨s.data.map Char.toLower⟩

/-- Lexicographic comparison of rune sequences by code point (the behaviour
of Go's `<` on strings for the ASCII data handled here). -/
def ltL : List Char → List Char → Bool
  | _, [] => false
  | [], _ :: _ => true
  | a :: as, b :: bs =>
    if a.toNat < b.toNat then true
    else if b.toNat < a.toNat then false
    else ltL as bs

/-- Go string `<`. -/
def goStrLt (a b : String) : Bool := ltL a.data b.data

/-- Go `strings.ReplaceAll s (string c) ""` for a single character `c`:
removes every occurrence of `c`. -/
def goRemoveChar (s : String) (c : Char) : String := ⟨s.data.filter (· ≠ c)⟩

/-- Slash-splitter over rune lists (the behaviour of `strings.Split` on
`"/"`, used to model `filepath.Clean`). -/
def splitSlashAux : List Char → List Char → List (List Char)
  | [], acc => [acc.reverse]
  | c :: cs, acc =>
    if c = '/' then acc.reverse :: splitSlashAux cs []
    else splitSlashAux cs (c :: acc)

/-- Path components of a string, split at `/`. -/
def splitSlash (p : String) : List (List Char) := splitSlashAux p.data []

/-- Joins components with `/` separators. -/
def joinSlash : List (List Char) → List Char
  | [] => []
  | [a] => a
  | a :: rest => a ++ '/' :: joinSlash rest

/-- Component-stack processing used by `filepath.Clean`: pushes normal
components, pops on `..` (or keeps a leading `..` chain when the path is
relative). -/
def cleanStack (rooted : Bool) : List (List Char) → List (List Char) → List (List Char)
  | acc, [] => acc
  | acc, c :: cs =>
    if c = ['.', '.'] then
      match acc with
      | [] => cleanStack rooted (if rooted then [] else [['.', '.']]) cs
      | a :: rest =>
        if a = ['.', '.'] then cleanStack rooted (c :: a :: rest) cs
        else cleanStack rooted rest cs
    else cleanStack rooted (c :: acc) cs

/-- Go `filepath.Clean` for slash-separated paths: drops empty and `.`
components, resolves `..` against preceding components, keeps a leading
`/` for rooted paths, and returns `.` for an empty relative result. -/
def goClean (p : String) : String :=
  if p = "" then "."
  else
    let rooted := goHasPre p "/"
    let comps := (splitSlash p).filter (fun c => c ≠ [] && c ≠ ['.'])
    let out := (cleanStack rooted [] comps).reverse
    if rooted then ⟨'/' :: joinSlash out⟩
    else if out = [] then "." else ⟨joinSlash out⟩

/-- Go `filepath.Dir`: everything up to the final slash, cleaned; `.` when
there is no slash. -/
def goDir (p : String) : String :=
  let keep := (p.data.reverse.dropWhile (· ≠ '/')).reverse
  goClean ⟨keep⟩

/-- Go `filepath.Base`: the last element of the path after trailing slashes
are removed; `"/"` for the root, `.` for the empty path. -/
def goBase (p : String) : String :=
  if p = "" then "."
  else
    let trimmed := (p.data.reverse.dropWhile (· = '/')).reverse
    if trimmed = [] then "/"
    else ⟨(trimmed.reverse.takeWhile (· ≠ '/')).reverse⟩

/-- Go `filepath.Join a b` for two elements: empty elements are skipped and
the result is cleaned. -/
def goJoin (a b : String) : String :=
  if a = "" && b = "" then ""
  else if a = "" then goClean b
  else if b = "" then goClean a
  else goClean (a ++ "/" ++ b)

/-! ## Data model: `RemoteFile` (internal/transfer).  `ModTime` is never
read by the modelled logic and is omitted. -/

/-- RemoteFile mirrors `transfer.RemoteFile`: a file on the remote server. -/
structure RemoteFile where
  Name : String
  Path : String
  IsDir : Bool
  Size : Int
deriving DecidableEq, Repr

instance : Inhabited RemoteFile := ⟨⟨"", "", false, 0⟩⟩

/-! ## SFTPSession.QuickSearch (internal/transfer): pattern sanitisation and
the command-failure control flow.  Remote command execution is an oracle: a
command either produces output (`some out`) or exits non-zero (`none`).
The `~`-expansion of the start directory (a remote `echo $HOME` round trip)
is elided; it does not affect the pattern or the failure handling. -/

/-- Shell metacharacters stripped by `QuickSearch` before interpolating the
pattern into the remote `find` command: single quote, double quote,
semicolon, pipe, ampersand, dollar, backtick. -/
def metachars : List Char :=
  [Char.ofNat 39, Char.ofNat 34, ';', '|', '&', '$', Char.ofNat 96]

/-- Sanitisation performed by `QuickSearch` (seven successive
`strings.ReplaceAll` calls that delete each metacharacter). -/
def sanitizePattern (p : String) : String :=
  metachars.foldl goRemoveChar p

/-- Go `strings.TrimSpace` (ASCII whitespace). -/
def goTrim (s : String) : String :=
  let ws : Char → Bool := fun c =>
    c = ' ' || c = Char.ofNat 9 || c = Char.ofNat 10 || c = Char.ofNat 13 ||
    c = Char.ofNat 11 || c = Char.ofNat 12
  ⟨(s.data.dropWhile ws).reverse.dropWhile ws |>.reverse⟩

/-- Line parser of `QuickSearch` output: each kept line is
`<typeChar> <path>`; lines that are empty or shorter than 3 bytes are
skipped; an entry is a directory when the type character is `d`. -/
def parseQuickSearchLine (line : String) : Option RemoteFile :=
  let line := goTrim line
  if line = "" || goLen line < 3 then none
  else
    let typeChar := line.data.headD ' '
    let path := goTrim ⟨line.data.drop 2⟩
    some ⟨goBase path, path, typeChar = 'd', 0⟩

/-- Splits output into lines (`strings.Split` on newline). -/
def splitLines (out : String) : List String :=
  ((splitSlashAux (out.data.map fun c => if c = Char.ofNat 10 then '/' else c) []).map
    fun l => (⟨l⟩ : String))

/-- Oracle for the remote command executions performed by one `QuickSearch`
call: whether creating the SSH session succeeds, and the outcome of the
primary and the fallback `find` command (`none` = non-zero exit). -/
structure QSExec where
  sessionOk : Bool
  primary : Option String
  fallback : Option String
deriving Repr

/-- Control flow of `SFTPSession.QuickSearch`: session-creation failure is
returned as an error; otherwise the primary command is run and, if it
fails, the portable fallback; if both fail the function returns a
successful empty list (`return []RemoteFile{}, nil`). -/
def quickSearchModel (ex : QSExec) (pattern startDir : String) (limit : Int) :
    Except String (List RemoteFile) :=
  let _limit := if limit ≤ 0 then (30 : Int) else limit
  let _pat := sanitizePattern pattern
  let _start := startDir
  if ex.sessionOk = false then Except.error "failed to create session"
  else
    match ex.primary with
    | some out => Except.ok ((splitLines out).filterMap parseQuickSearchLine)
    | none =>
      match ex.fallback with
      | some out => Except.ok ((splitLines out).filterMap parseQuickSearchLine)
      | none => Except.ok []

/-! ## HistoryManager.RecordTransfer (internal/history).  The JSON file IO
(`saveHistory`) is elided; the map mutation is modelled exactly.  Time is an
abstract `Nat` passed in as `now`. -/

/-- TransferHistoryEntry mirrors `history.TransferHistoryEntry`. -/
structure TransferHistoryEntry where
  Direction : String
  LocalPath : String
  RemotePath : String
  Timestamp : Nat
deriving DecidableEq, Repr

/-- ConnectionInfo mirrors `history.ConnectionInfo` (the port-forwarding
field is never touched by `RecordTransfer` and is omitted). -/
structure ConnectionInfo where
  HostName : String
  LastConnect : Nat
  ConnectCount : Int
  TransferHistory : List TransferHistoryEntry
deriving DecidableEq, Repr

/-- Connection map of the history store (`map[string]ConnectionInfo`),
modelled as an association list with at most one binding per key. -/
def HistoryMap := List (String × ConnectionInfo)

/-- Map lookup. -/
def histLookup (hm : HistoryMap) (host : String) : Option ConnectionInfo :=
  match hm with
  | [] => none
  | (k, v) :: rest => if k = host then some v else histLookup rest host

/-- Map insert-or-replace. -/
def histInsert (hm : HistoryMap) (host : String) (c : ConnectionInfo) : HistoryMap :=
  match hm with
  | [] => [(host, c)]
  | (k, v) :: rest => if k = host then (k, c) :: rest else (k, v) :: histInsert rest host c

/-- RecordTransfer mirrors `HistoryManager.RecordTransfer`: the new entry is
prepended to the host's history, which is truncated to 10 entries when it
exceeds 10; for an unknown host a fresh record with a singleton history and
connect count 0 is created. -/
def recordTransfer (hm : HistoryMap) (host direction localPath remotePath : String)
    (now : Nat) : HistoryMap :=
  let entry : TransferHistoryEntry := ⟨direction, localPath, remotePath, now⟩
  match histLookup hm host with
  | some conn =>
    let hist := entry :: conn.TransferHistory
    let hist := if hist.length > 10 then hist.take 10 else hist
    histInsert hm host { conn with TransferHistory := hist, LastConnect := now }
  | none =>
    histInsert hm host ⟨host, now, 0, [entry]⟩

/-- GetTransferHistory mirrors `HistoryManager.GetTransferHistory` (`nil`
for an unknown host becomes `[]`). -/
def getTransferHistory (hm : HistoryMap) (host : String) : List TransferHistoryEntry :=
  match histLookup hm host with
  | some conn => conn.TransferHistory
  | none => []

/-- Records a whole sequence of transfers for one host, oldest first, each
given as (direction, localPath, remotePath, now). -/
def recordAll (hm : HistoryMap) (host : String)
    (ts : List (String × String × String × Nat)) : HistoryMap :=
  ts.foldl (fun m t => recordTransfer m host t.1 t.2.1 t.2.2.1 t.2.2.2) hm

/-- History entry corresponding to one transfer tuple. -/
def entryOf (t : String × String × String × Nat) : TransferHistoryEntry :=
  ⟨t.1, t.2.1, t.2.2.1, t.2.2.2⟩

/-! ## SFTPSession.ListDirectory (internal/transfer): the synthetic `..`
entry and the final ordering.  The remote `ls -la` execution, field parsing
and symlink resolution are elided: `parsed` stands for the entries built
from the output lines, and the loop's skip of the literal `.` and `..`
names is kept as a filter.  Go's `sort.Slice` is unstable but sorts with
respect to the comparator; it is modelled by insertion sort with the same
comparator. -/

/-- Comparator of `ListDirectory` (`sort.Slice` less function): the `..`
entry first, then directories before files, then case-insensitive name
order. -/
def lsLess (a b : RemoteFile) : Bool :=
  if a.Name = ".." then true
  else if b.Name = ".." then false
  else if a.IsDir ≠ b.IsDir then a.IsDir
  else goStrLt (goToLower a.Name) (goToLower b.Name)

/-- Insertion respecting the `sort.Slice` postcondition: an element is
placed before the first list element `y` with `lsLess y x = false`. -/
def insertLS (x : RemoteFile) : List RemoteFile → List RemoteFile
  | [] => [x]
  | y :: ys => if lsLess y x then y :: insertLS x ys else x :: y :: ys

/-- Insertion sort by `lsLess`. -/
def sortLS : List RemoteFile → List RemoteFile
  | [] => []
  | x :: xs => insertLS x (sortLS xs)

/-- Synthetic parent entry: added unless the listed path is the root. -/
def parentEntries (path : String) : List RemoteFile :=
  if path = "/" then [] else [⟨"..", goDir path, true, 0⟩]

/-- Skip of `.` and `..` names in the `ls` output parsing loop. -/
def lsKeep (parsed : List RemoteFile) : List RemoteFile :=
  parsed.filter fun e => !(e.Name == "." || e.Name == "..")

/-- Entry list returned by `ListDirectory path` when the parsed output
lines yield `parsed`. -/
def listDirectoryEntries (path : String) (parsed : List RemoteFile) : List RemoteFile :=
  sortLS (parentEntries path ++ lsKeep parsed)

/-- Case-insensitive name order, the per-segment ordering the spec
describes. -/
def nameLE (a b : RemoteFile) : Prop :=
  goStrLt (goToLower b.Name) (goToLower a.Name) = false

instance (a b : RemoteFile) : Decidable (nameLE a b) := by unfold nameLE; infer_instance

/-! ## remoteBrowserModel.sortSearchResults (internal/ui): relevance ranking
of search results (`sort.SliceStable`; the claim's ordering does not depend
on stability, and the comparator's ties are unconstrained, so insertion
sort with the same comparator is a faithful model). -/

/-- Comparator of `sortSearchResults` over the lower-cased query `lq`:
exact name match, then name prefix, then name substring, then shorter path
(in bytes). -/
def srLess (lq : String) (a b : RemoteFile) : Bool :=
  let nameI := goToLower a.Name
  let nameJ := goToLower b.Name
  let exactI := nameI == lq
  let exactJ := nameJ == lq
  if exactI ≠ exactJ then exactI
  else
    let startsI := goHasPre nameI lq
    let startsJ := goHasPre nameJ lq
    if startsI ≠ startsJ then startsI
    else
      let containsI := goContains nameI lq
      let containsJ := goContains nameJ lq
      if containsI ≠ containsJ then containsI
      else decide (goLen a.Path < goLen b.Path)

/-- Insertion respecting the sort postcondition for `srLess`. -/
def insertSR (lq : String) (x : RemoteFile) : List RemoteFile → List RemoteFile
  | [] => [x]
  | y :: ys => if srLess lq y x then y :: insertSR lq x ys else x :: y :: ys

/-- Insertion sort by `srLess`. -/
def sortSR (lq : String) : List RemoteFile → List RemoteFile
  | [] => []
  | x :: xs => insertSR lq x (sortSR lq xs)

/-- Ranking as performed by `sortSearchResults`: applied only to a
non-empty result list and a query of length at least 3. -/
def sortSearchResultsFn (q : String) (files : List RemoteFile) : List RemoteFile :=
  if files.length = 0 || goLen q < 3 then files
  else sortSR (goToLower q) files

/-- Relevance grade of an entry for the lower-cased query: 0 = exact name
match, 1 = name prefix match only, 2 = name substring match only, 3 = no
name match (path-only match). -/
def matchGrade (lq : String) (e : RemoteFile) : Nat :=
  let n := goToLower e.Name
  if n == lq then 0
  else if goHasPre n lq then 1
  else if goContains n lq then 2
  else 3

/-- Display order the claim describes: strictly better grade first, equal
grades ordered by path length. -/
def rankedLE (lq : String) (a b : RemoteFile) : Prop :=
  matchGrade lq a < matchGrade lq b ∨
    (matchGrade lq a = matchGrade lq b ∧ goLen a.Path ≤ goLen b.Path)

instance (lq : String) (a b : RemoteFile) : Decidable (rankedLE lq a b) := by
  unfold rankedLE; infer_instance

/-! ## quickTransferModel.executeTransfer (internal/ui): derivation of the
`recursive` flag and of the final local path.  The `os.Stat` call on the
chosen local path is an oracle: `none` = stat error, `some b` = the path
exists and `b` tells whether it is a directory. -/

/-- Direction mirrors `transfer.Direction`. -/
inductive Direction | Upload | Download
deriving DecidableEq, Repr

/-- UploadType mirrors `ui.UploadType` (reused for the download type). -/
inductive UploadType | UploadFile | UploadFolder
deriving DecidableEq, Repr

/-- Inputs of `executeTransfer` that decide the request fields. -/
structure ExecInput where
  direction : Direction
  downloadType : UploadType
  localPath : String
  remotePath : String
  localStat : Option Bool
deriving DecidableEq, Repr

/-- Path/recursive derivation of `executeTransfer`: uploads of a local
directory are recursive; downloads into an existing local directory get the
remote basename appended (`filepath.Join`); downloads of folder type are
recursive.  Returns (final local path, recursive). -/
def executeTransferCore (i : ExecInput) : String × Bool :=
  let localPath := i.localPath
  let recursive := false
  match i.direction with
  | Direction.Upload =>
    let recursive := if i.localStat = some true then true else recursive
    (localPath, recursive)
  | Direction.Download =>
    let localPath :=
      if i.localStat = some true then goJoin localPath (goBase i.remotePath)
      else localPath
    let recursive := if i.downloadType = UploadType.UploadFolder then true else recursive
    (localPath, recursive)

/-! ## TransferRequest.StartTransfer / RunningTransfer.Cancel
(internal/transfer): the completion channel discipline.  After a successful
`cmd.Start()`, two agents run concurrently: the waiter goroutine
(`cmd.Wait()` returns, then `rt.killed` is read, then one result is sent on
the buffered `done` channel) and the canceller (each `Cancel()` call sets
`rt.killed` and kills the process).  Sequentially consistent interleavings
are modelled as traces of atomic events; `natRes` is the result the waiter
would report for the process's own exit.  A failed `cmd.Start()` publishes
a single failure without spawning the waiter. -/

/-- TransferResult mirrors `transfer.TransferResult` (bytes counter elided:
it is never set by the modelled code). -/
structure TransferResult where
  Success : Bool
  Error : Option String
deriving DecidableEq, Repr

/-- Result published when the waiter observes the killed flag. -/
def cancelledResult : TransferResult := ⟨false, some "transfer cancelled"⟩

/-- Atomic events of one running transfer. -/
inductive TEvent
  | cancel
  | waitRet
  | readK
  | publish
deriving DecidableEq, Repr

/-- State of the transfer machine: the shared `killed` flag, the waiter's
program counter, the waiter's local view of the flag, and the list of
results sent on the `done` channel. -/
structure TState where
  killed : Bool
  waitDone : Bool
  readDone : Bool
  localKilled : Bool
  published : List TransferResult
deriving DecidableEq, Repr

/-- Initial state after a successful `cmd.Start()`. -/
def tInit : TState := ⟨false, false, false, false, []⟩

/-- Effect of one atomic event (`natRes` is the process's natural exit
result): `Cancel` sets the shared flag; the waiter returns from `Wait`,
reads the flag, then sends exactly one result, choosing the cancellation
error iff the flag was set when read. -/
def tStep (natRes : TransferResult) (s : TState) : TEvent → TState
  | TEvent.cancel => { s with killed := true }
  | TEvent.waitRet => { s with waitDone := true }
  | TEvent.readK =>
    if s.waitDone then { s with readDone := true, localKilled := s.killed } else s
  | TEvent.publish =>
    if s.readDone then
      { s with published :=
          s.published ++ [if s.localKilled then cancelledResult else natRes] }
    else s

/-- Runs a trace of events from the post-start state. -/
def tRun (natRes : TransferResult) (tr : List TEvent) : TState :=
  tr.foldl (tStep natRes) tInit

/-- Interleavings of the waiter's three ordered steps with `a` cancel
invocations before `Wait` returns, `b` between `Wait` and the flag read,
`c` between the read and the send, and `d` after the send.  Every
sequentially consistent schedule of the two agents has this shape. -/
def buildTrace (a b c d : Nat) : List TEvent :=
  List.replicate a TEvent.cancel ++ [TEvent.waitRet] ++
  List.replicate b TEvent.cancel ++ [TEvent.readK] ++
  List.replicate c TEvent.cancel ++ [TEvent.publish] ++
  List.replicate d TEvent.cancel

/-- Results published by the start-failure path of `StartTransfer`: the
error is sent once and the waiter is never spawned. -/
def startFailPublished (startErr : String) : List TransferResult :=
  [⟨false, some startErr⟩]

/-! ## remoteBrowserModel (internal/ui): the browser state machine.  The
`Update` method is embedded as a pure transition function from a model and
a message to a model and at most one command.  Rendering-only fields
(styles, width, height) and the host/config strings are dropped; the
session handle is an IO resource whose `Close` calls have no effect on the
modelled fields.  The cursor is an `Int` exactly like Go's `int`; Go's
`m.visibleFiles[m.cursor]` panics when the index is out of range, which the
embedding totalises with `List.getD` (claim C10 addresses exactly this
spot). -/

/-- BrowserMode mirrors `ui.BrowserMode`. -/
inductive BrowserMode | BrowseFiles | BrowseDirectories
deriving DecidableEq, Repr

/-- Mutable fields of `remoteBrowserModel` read or written by `Update`. -/
structure BrowserModel where
  currentDir : String
  files : List RemoteFile
  visibleFiles : List RemoteFile
  cursor : Int
  err : String
  loading : Bool
  mode : BrowserMode
  searchMode : Bool
  searchQuery : String
  searchFiles : List RemoteFile
  showHidden : Bool
  pendingSearch : String
  searchTriggered : Bool
deriving DecidableEq, Repr

/-- Messages processed by `Update`: directory-listing completions, search
completions, debounce timer ticks, and key presses (the key's
`msg.String()` form). -/
inductive BrowserMsg
  | loaded (files : List RemoteFile) (dir : String) (err : Option String)
  | searchRes (files : List RemoteFile) (query : String) (err : Option String)
  | debounce (query : String)
  | key (k : String)
deriving DecidableEq, Repr

/-- Commands returned by `Update` (the asynchronous work it schedules). -/
inductive BrowserCmd
  | loadDir (path : String)
  | runSearch (query : String)
  | scheduleSearch (query : String)
  | emitResult (path : String) (selected : Bool)
deriving DecidableEq, Repr

/-- Model produced by `NewRemoteBrowser` (an empty start path defaults to
`~`; the first directory load is already outstanding). -/
def newRemoteBrowser (startPath : String) (mode : BrowserMode) : BrowserModel :=
  { currentDir := if startPath = "" then "~" else startPath
    files := [], visibleFiles := [], cursor := 0, err := ""
    loading := true, mode := mode, searchMode := false, searchQuery := ""
    searchFiles := [], showHidden := false, pendingSearch := ""
    searchTriggered := false }

/-- filterFiles: recomputes `visibleFiles` from `files` respecting the
hidden-file toggle (the `..` entry is always kept). -/
def filterFiles (m : BrowserModel) : BrowserModel :=
  if m.showHidden then { m with visibleFiles := m.files }
  else
    { m with visibleFiles :=
        m.files.filter fun f => f.Name == ".." || !(goHasPre f.Name ".") }

/-- filterSearchResults: on backspace with a query still of length ≥ 3,
filters the existing results locally by the new query and clamps the
cursor. -/
def filterSearchResults (m : BrowserModel) : BrowserModel :=
  if goLen m.searchQuery < 3 then m
  else
    let query := goToLower m.searchQuery
    let filtered := m.searchFiles.filter fun f =>
      goContains (goToLower f.Name) query || goContains (goToLower f.Path) query
    let m := { m with searchFiles := filtered }
    if m.cursor ≥ (m.searchFiles.length : Int) then
      let c := (m.searchFiles.length : Int) - 1
      { m with cursor := if c < 0 then 0 else c }
    else m

/-- sortSearchResults as a model transformation (see
`sortSearchResultsFn`). -/
def sortSearchResultsM (m : BrowserModel) : BrowserModel :=
  if m.searchFiles.length = 0 || goLen m.searchQuery < 3 then m
  else { m with searchFiles := sortSR (goToLower m.searchQuery) m.searchFiles }

/-- Go slice drop of the last byte (`q[:len(q)-1]`; the queries built by
the browser are printable ASCII, one rune per byte). -/
def strDropLast (s : String) : String := ⟨s.data.dropLast⟩

/-- Update mirrors `remoteBrowserModel.Update` line by line (first,
authoritative version of the file). -/
def browserUpdate (m : BrowserModel) (msg : BrowserMsg) :
    BrowserModel × Option BrowserCmd :=
  match msg with
  | BrowserMsg.loaded files dir err =>
    let m := { m with loading := false }
    match err with
    | some e => ({ m with err := e }, none)
    | none =>
      let m := { m with files := files, currentDir := dir, cursor := 0, err := ""
                        searchMode := false, searchQuery := "", searchFiles := [] }
      (filterFiles m, none)
  | BrowserMsg.searchRes files query err =>
    if query ≠ m.searchQuery then (m, none)
    else
      let m := { m with loading := false, searchTriggered := true }
      match err with
      | some e => ({ m with err := e }, none)
      | none =>
        let m := sortSearchResultsM { m with searchFiles := files }
        ({ m with cursor := 0, err := "" }, none)
  | BrowserMsg.debounce query =>
    if query = m.searchQuery ∧ 3 ≤ goLen m.searchQuery ∧ m.searchTriggered = false then
      ({ m with loading := true, pendingSearch := "" },
        some (BrowserCmd.runSearch m.searchQuery))
    else (m, none)
  | BrowserMsg.key k =>
    if m.loading ∧ m.searchMode then
      if k = "esc" then
        ({ m with searchMode := false, searchQuery := "", searchFiles := []
                  pendingSearch := "", searchTriggered := false, loading := false
                  cursor := 0 }, none)
      else if k = "up" ∨ k = "ctrl+p" then
        (if m.cursor > 0 then { m with cursor := m.cursor - 1 } else m, none)
      else if k = "down" ∨ k = "ctrl+n" then
        (if m.cursor < (m.searchFiles.length : Int) - 1 then
          { m with cursor := m.cursor + 1 } else m, none)
      else (m, none)
    else if m.loading then (m, none)
    else if m.searchMode then
      if k = "esc" ∨ k = "ctrl+c" then
        ({ m with searchMode := false, searchQuery := "", searchFiles := []
                  pendingSearch := "", searchTriggered := false, cursor := 0 }, none)
      else if k = "enter" then
        if 0 < m.searchFiles.length ∧ m.cursor < (m.searchFiles.length : Int) then
          let file := m.searchFiles.getD m.cursor.toNat default
          if file.IsDir then
            ({ m with searchMode := false, searchQuery := "", searchFiles := []
                      pendingSearch := "", searchTriggered := false, loading := true },
              some (BrowserCmd.loadDir file.Path))
          else if m.mode = BrowserMode.BrowseFiles then
            (m, some (BrowserCmd.emitResult file.Path true))
          else (m, none)
        else (m, none)
      else if k = "up" ∨ k = "ctrl+p" then
        (if m.cursor > 0 then { m with cursor := m.cursor - 1 } else m, none)
      else if k = "down" ∨ k = "ctrl+n" then
        (if m.cursor < (m.searchFiles.length : Int) - 1 then
          { m with cursor := m.cursor + 1 } else m, none)
      else if k = "backspace" then
        if 0 < goLen m.searchQuery then
          let m := { m with searchQuery := strDropLast m.searchQuery
                            searchTriggered := false }
          if goLen m.searchQuery < 3 then
            ({ m with searchFiles := [], pendingSearch := "" }, none)
          else
            let m := if 0 < m.searchFiles.length then filterSearchResults m else m
            ({ m with pendingSearch := "" }, none)
        else (m, none)
      else
        match k.data with
        | [c] =>
          if 32 ≤ c.toNat ∧ c.toNat < 127 then
            let m := { m with searchQuery := m.searchQuery ++ k
                              searchTriggered := false }
            if 3 ≤ goLen m.searchQuery then
              ({ m with pendingSearch := m.searchQuery },
                some (BrowserCmd.scheduleSearch m.searchQuery))
            else (m, none)
          else (m, none)
        | _ => (m, none)
    else
      if k = "q" ∨ k = "ctrl+c" then (m, some (BrowserCmd.emitResult "" false))
      else if k = "esc" then
        (m, some (BrowserCmd.emitResult "" false))
      else if k = "/" then
        ({ m with searchMode := true, searchQuery := "", searchFiles := []
                  cursor := 0 }, none)
      else if k = "." then
        let m := filterFiles { m with showHidden := !m.showHidden }
        let m :=
          if m.cursor ≥ (m.visibleFiles.length : Int) then
            let c := (m.visibleFiles.length : Int) - 1
            { m with cursor := if c < 0 then 0 else c }
          else m
        (m, none)
      else if k = "r" ∨ k = "R" then
        ({ m with err := "", loading := true }, some (BrowserCmd.loadDir m.currentDir))
      else if k = "enter" then
        if m.visibleFiles.length = 0 then (m, none)
        else
          let file := m.visibleFiles.getD m.cursor.toNat default
          if file.IsDir then
            ({ m with loading := true }, some (BrowserCmd.loadDir file.Path))
          else if m.mode = BrowserMode.BrowseFiles then
            (m, some (BrowserCmd.emitResult file.Path true))
          else (m, none)
      else if k = "s" ∨ k = " " then
        if m.mode = BrowserMode.BrowseDirectories then
          let path :=
            if m.searchMode ∧ 0 < m.searchFiles.length ∧
                (m.searchFiles.getD m.cursor.toNat default).IsDir then
              (m.searchFiles.getD m.cursor.toNat default).Path
            else m.currentDir
          (m, some (BrowserCmd.emitResult path true))
        else (m, none)
      else if k = "up" ∨ k = "k" then
        (if m.cursor > 0 then { m with cursor := m.cursor - 1 } else m, none)
      else if k = "down" ∨ k = "j" then
        (if m.cursor < (m.visibleFiles.length : Int) - 1 then
          { m with cursor := m.cursor + 1 } else m, none)
      else if k = "home" ∨ k = "g" then ({ m with cursor := 0 }, none)
      else if k = "end" ∨ k = "G" then
        (if 0 < m.visibleFiles.length then
          { m with cursor := (m.visibleFiles.length : Int) - 1 } else m, none)
      else if k = "backspace" ∨ k = "h" ∨ k = "left" then
        let parent := goDir m.currentDir
        if parent ≠ m.currentDir then
          ({ m with loading := true }, some (BrowserCmd.loadDir parent))
        else (m, none)
      else if k = "~" then
        ({ m with loading := true }, some (BrowserCmd.loadDir "~"))
      else if k = "right" ∨ k = "l" then
        if 0 < m.visibleFiles.length ∧
            (m.visibleFiles.getD m.cursor.toNat default).IsDir then
          ({ m with loading := true },
            some (BrowserCmd.loadDir (m.visibleFiles.getD m.cursor.toNat default).Path))
        else (m, none)
      else (m, none)

/-- Folds a message sequence through `browserUpdate`, keeping the model. -/
def browserRun (m : BrowserModel) (msgs : List BrowserMsg) : BrowserModel :=
  msgs.foldl (fun s msg => (browserUpdate s msg).1) m

/-! ## Concrete fixtures used by counterexamples and witnesses. -/

/-- Browser state after one successful listing of `/a` with one visible
file. -/
def c1State : BrowserModel :=
  { currentDir := "/a", files := [⟨"x", "/a/x", false, 0⟩]
    visibleFiles := [⟨"x", "/a/x", false, 0⟩], cursor := 0, err := ""
    loading := false, mode := BrowserMode.BrowseFiles, searchMode := false
    searchQuery := "", searchFiles := [], showHidden := false
    pendingSearch := "", searchTriggered := false }

/-- Browser state in search mode with the settled query `abc` and a
debounced search pending. -/
def c6State : BrowserModel :=
  { c1State with searchMode := true, searchQuery := "abc", pendingSearch := "abc" }

/-- Message sequence driving the browser into a state whose cursor exceeds
the visible-file count: list `/d` (one file), search `abc`, receive three
results, move the cursor to the last (a directory), select it, and have the
resulting directory load fail. -/
def c10Events : List BrowserMsg :=
  [ BrowserMsg.loaded [⟨"f", "/d/f", false, 0⟩] "/d" none
  , BrowserMsg.key "/"
  , BrowserMsg.key "a", BrowserMsg.key "b", BrowserMsg.key "c"
  , BrowserMsg.debounce "abc"
  , BrowserMsg.searchRes
      [⟨"abc", "/d/abc", false, 0⟩, ⟨"abcd", "/d/abcd", false, 0⟩,
        ⟨"xabc", "/x/xabc", true, 0⟩] "abc" none
  , BrowserMsg.key "down", BrowserMsg.key "down"
  , BrowserMsg.key "enter"
  , BrowserMsg.loaded [] "/x/xabc" (some "connection lost") ]

/-- Wizard input of the spec scenario: downloading `/var/log/app.log` into
the existing local directory `./downloads/` as a file download. -/
def c8Input : ExecInput :=
  ⟨Direction.Download, UploadType.UploadFile, "./downloads/", "/var/log/app.log", some true⟩

/-- Search results of the spec scenario for the query `log`. -/
def c7Files : List RemoteFile :=
  [⟨"app.log", "/srv/app.log", false, 0⟩, ⟨"logo.png", "/srv/logo.png", false, 0⟩]

/-- Eleven sequential transfer tuples for the history-cap scenario. -/
def c4Transfers : List (String × String × String × Nat) :=
  (List.range 11).map fun k => ("upload", "l", "r", k)

/-! ## Helper lemmas. -/

/-- Membership after the sanitisation fold implies membership before and
absence of the character from the removed list. -/
theorem mem_foldl_remove (cs : List Char) (s : String) (c : Char)
    (h : c ∈ (cs.foldl goRemoveChar s).data) : c ∈ s.data ∧ c ∉ cs := by
  induction cs generalizing s with
  | nil => exact ⟨h, by simp⟩
  | cons c0 cs ih =>
    have h2 := ih (goRemoveChar s c0) h
    have h3 : c ∈ s.data ∧ c ≠ c0 := by
      have := h2.1
      unfold goRemoveChar at this
      simp only [List.mem_filter, decide_eq_true_eq] at this
      exact this
    exact ⟨h3.1, by simp [h3.2, h2.2]⟩

/-- The lookup after an insert at the same key. -/
theorem histLookup_insert_self (hm : HistoryMap) (host : String) (c : ConnectionInfo) :
    histLookup (histInsert hm host c) host = some c := by
  induction hm with
  | nil => simp [histInsert, histLookup]
  | cons kv rest ih =>
    by_cases h : kv.1 = host
    · simp [histInsert, histLookup, h]
    · simp [histInsert, histLookup, h, ih]

/-- One RecordTransfer call makes the host's history the take-10 of the new
entry consed onto the old history. -/
theorem recordTransfer_history (hm : HistoryMap) (host d lp rp : String) (now : Nat) :
    getTransferHistory (recordTransfer hm host d lp rp now) host
      = ((⟨d, lp, rp, now⟩ : TransferHistoryEntry) :: getTransferHistory hm host).take 10 := by
  unfold recordTransfer getTransferHistory
  cases hl : histLookup hm host with
  | none =>
    simp [hl, histLookup_insert_self]
  | some conn =>
    simp only [hl, histLookup_insert_self]
    by_cases hlen : ((⟨d, lp, rp, now⟩ : TransferHistoryEntry) :: conn.TransferHistory).length > 10
    · simp [hlen]
    · have : ((⟨d, lp, rp, now⟩ : TransferHistoryEntry) :: conn.TransferHistory).length ≤ 10 := by
        omega
      simp [hlen, List.take_of_length_le this]

/-- Prepending to a take-10 and re-truncating is the same as truncating the
whole prepend. -/
theorem take_append_take (A B : List TransferHistoryEntry) (n : Nat) :
    (A ++ B.take n).take n = (A ++ B).take n := by
  rw [List.take_append_eq_append_take, List.take_append_eq_append_take, List.take_take]
  congr 1
  exact congrArg (fun k => B.take k) (Nat.min_eq_left (Nat.sub_le n A.length))

/-! ## Claim C3. -/

/-- C3: for every input pattern, `QuickSearch` removes every occurrence of
the seven shell metacharacters (single quote, double quote, semicolon,
pipe, ampersand, dollar, backtick) before interpolating the pattern into
the remote search command, so the sanitised pattern that is interpolated
contains none of them. -/
theorem claim3_sanitize_strips_metachars :
    ∀ p : String, ∀ c ∈ metachars, c ∉ (sanitizePattern p).data := by
  intro p c hc hmem
  exact (mem_foldl_remove metachars p c hmem).2 hc

/-- Witness for C3 at a concrete pattern and metacharacter. -/
theorem claim3_witness :
    ';' ∈ metachars ∧ ';' ∉ (sanitizePattern "rm -rf x; echo").data :=
  ⟨by decide, claim3_sanitize_strips_metachars "rm -rf x; echo" ';' (by decide)⟩

/-! ## Claim C9. -/

/-- C9 counterexample: with the session open and both the primary and the
fallback remote command failing (non-zero exit), `QuickSearch` returns a
successful empty result, not an error — the claim said the failure is
surfaced to the caller as an error. -/
theorem claim9_counterexample :
    quickSearchModel ⟨true, none, none⟩ "abc" "/start" 30 = Except.ok [] := rfl

/-- C9 amended: a `QuickSearch` invocation in which both the primary and
the fallback command forms fail reports a successful empty result list (no
error reaches the caller); only a session-creation failure is surfaced as
an error. -/
theorem claim9_amended :
    (∀ (ex : QSExec) (pattern startDir : String) (limit : Int),
      ex.sessionOk = true → ex.primary = none → ex.fallback = none →
        quickSearchModel ex pattern startDir limit = Except.ok [])
    ∧ (∀ (ex : QSExec) (pattern startDir : String) (limit : Int),
      ex.sessionOk = false →
        quickSearchModel ex pattern startDir limit = Except.error "failed to create session") := by
  constructor
  · intro ex pattern startDir limit hs hp hf
    cases ex
    simp_all [quickSearchModel]
  · intro ex pattern startDir limit hs
    cases ex
    simp_all [quickSearchModel]

/-- Witness for C9 at a concrete oracle. -/
theorem claim9_witness :
    quickSearchModel ⟨true, none, none⟩ "pattern" "/d" 30 = Except.ok [] :=
  claim9_amended.1 ⟨true, none, none⟩ "pattern" "/d" 30 rfl rfl rfl

/-! ## Claim C4. -/

/-- C4: for every host and sequence of recorded transfers, RecordTransfer
prepends each new entry to that host's history and truncates to at most 10
entries: starting from any store whose history for the host is within the
cap, the stored history after the sequence is the most-recent-first
truncation to 10 of all recorded entries followed by the initial history. -/
theorem claim4_history_cap :
    ∀ (hm : HistoryMap) (host : String) (ts : List (String × String × String × Nat)),
      (getTransferHistory hm host).length ≤ 10 →
        getTransferHistory (recordAll hm host ts) host
          = ((ts.reverse.map entryOf) ++ getTransferHistory hm host).take 10 := by
  intro hm host ts
  induction ts generalizing hm with
  | nil =>
    intro h
    simp [recordAll, List.take_of_length_le h]
  | cons t ts ih =>
    intro _
    have step : recordAll hm host (t :: ts) = recordAll (recordTransfer hm host t.1 t.2.1 t.2.2.1 t.2.2.2) host ts := by
      simp [recordAll]
    have hrec := recordTransfer_history hm host t.1 t.2.1 t.2.2.1 t.2.2.2
    have hlen : (getTransferHistory (recordTransfer hm host t.1 t.2.1 t.2.2.1 t.2.2.2) host).length ≤ 10 := by
      rw [hrec]
      simp
    rw [step, ih _ hlen, hrec]
    rw [take_append_take]
    simp [entryOf]

/-- Witness for C4: eleven sequential transfers for `myhost` starting from
an empty store leave exactly the ten most recent entries, most recent
first. -/
theorem claim4_witness :
    (getTransferHistory ([] : HistoryMap) "myhost").length ≤ 10 ∧
      getTransferHistory (recordAll [] "myhost" c4Transfers) "myhost"
        = ((c4Transfers.reverse.map entryOf) ++ getTransferHistory ([] : HistoryMap) "myhost").take 10 :=
  ⟨by decide, claim4_history_cap [] "myhost" c4Transfers (by decide)⟩

/-! ## Claim C1. -/

/-- C1 counterexample: a directory-listing completion for `/b` arriving
while the browser's current directory is `/a` (a completion for a directory
that is not the current one) is not discarded: it overwrites the entry list
and the current directory, so the claim that stale listing completions
leave the visible state unchanged fails on the code. -/
theorem claim1_counterexample :
    c1State.currentDir = "/a"
    ∧ (browserUpdate c1State
        (BrowserMsg.loaded [⟨"y", "/b/y", false, 0⟩] "/b" none)).1.currentDir = "/b"
    ∧ (browserUpdate c1State
        (BrowserMsg.loaded [⟨"y", "/b/y", false, 0⟩] "/b" none)).1.files ≠ c1State.files := by
  decide

/-- C1 amended: a search completion whose query differs from the current
`searchQuery` leaves the entire browser state unchanged and schedules
nothing, whereas directory-listing completions carry no staleness check:
a successful listing completion is applied unconditionally, setting the
entry list and the current directory to the completion's payload. -/
theorem claim1_amended :
    (∀ (m : BrowserModel) (files : List RemoteFile) (q : String) (err : Option String),
      q ≠ m.searchQuery →
        browserUpdate m (BrowserMsg.searchRes files q err) = (m, none))
    ∧ (∀ (m : BrowserModel) (files : List RemoteFile) (dir : String),
      (browserUpdate m (BrowserMsg.loaded files dir none)).1.currentDir = dir
        ∧ (browserUpdate m (BrowserMsg.loaded files dir none)).1.files = files) := by
  constructor
  · intro m files q err h
    simp [browserUpdate, h]
  · intro m files dir
    unfold browserUpdate filterFiles
    by_cases h : m.showHidden <;> simp [h]

/-- Witness for C1 at a concrete stale search completion. -/
theorem claim1_witness :
    "old" ≠ c1State.searchQuery
    ∧ browserUpdate c1State (BrowserMsg.searchRes [] "old" none) = (c1State, none) :=
  ⟨by decide, claim1_amended.1 c1State [] "old" none (by decide)⟩

/-! ## Claim C8. -/

/-- C8 counterexample: in the spec's own scenario (downloading
`/var/log/app.log` into the existing directory `./downloads/`) the final
local path produced by `executeTransfer` is `downloads/app.log` —
`filepath.Join` cleans the leading `./` — not the claimed literal
`./downloads/app.log`. -/
theorem claim8_counterexample :
    (executeTransferCore c8Input).1 = "downloads/app.log"
    ∧ (executeTransferCore c8Input).1 ≠ "./downloads/app.log" := by
  decide

/-- C8 amended: `recursive` is set exactly when uploading a local directory
or downloading with the folder type selected; when downloading into an
existing local directory the final local path is `filepath.Join` of that
directory and the remote basename (`Join` cleans the result, so
`./downloads/` yields `downloads/app.log`). -/
theorem claim8_amended :
    ∀ i : ExecInput,
      ((executeTransferCore i).2 = true ↔
        (i.direction = Direction.Upload ∧ i.localStat = some true)
        ∨ (i.direction = Direction.Download ∧ i.downloadType = UploadType.UploadFolder))
      ∧ (i.direction = Direction.Download → i.localStat = some true →
        (executeTransferCore i).1 = goJoin i.localPath (goBase i.remotePath)) := by
  intro i
  cases i with
  | mk dir dt lp rp st =>
    cases dir <;> cases dt <;> by_cases hst : st = some true <;>
      simp_all [executeTransferCore]

/-- Witness for C8 at the spec scenario input. -/
theorem claim8_witness :
    c8Input.direction = Direction.Download ∧ c8Input.localStat = some true
    ∧ (executeTransferCore c8Input).1 = goJoin c8Input.localPath (goBase c8Input.remotePath) :=
  ⟨rfl, rfl, (claim8_amended c8Input).2 rfl rfl⟩

/-! ## Claim C2. -/

/-- Folding any number of cancel events only sets the killed flag. -/
theorem tRun_cancels (nr : TransferResult) (n : Nat) (s : TState) :
    List.foldl (tStep nr) s (List.replicate n TEvent.cancel)
      = { s with killed := s.killed || decide (0 < n) } := by
  induction n generalizing s with
  | zero => simp
  | succ k ih =>
    rw [List.replicate_succ, List.foldl_cons, ih]
    simp [tStep]

/-- Characterisation of every sequentially consistent interleaving of the
waiter and the canceller: exactly one result is published, and it is the
cancellation error iff some cancel happened before the waiter read the
killed flag. -/
theorem tRun_buildTrace (nr : TransferResult) (a b c d : Nat) :
    (tRun nr (buildTrace a b c d)).published
      = [if 0 < a + b then cancelledResult else nr] := by
  have hab : (0 < a + b) = (0 < a ∨ 0 < b) := by
    apply propext; omega
  unfold tRun buildTrace tInit
  simp only [List.foldl_append, List.foldl_cons, List.foldl_nil, tRun_cancels, tStep]
  by_cases ha : 0 < a <;> by_cases hb : 0 < b <;>
    simp_all [hab]

/-- C2 counterexample: in the interleaving where the process exits
naturally, the waiter reads the killed flag, and only then Cancel is
invoked — i.e. cancel is invoked strictly before the result is published —
the published result is the natural success, not the cancellation error,
refuting the claim as stated. -/
theorem claim2_counterexample :
    buildTrace 0 0 1 0 = [TEvent.waitRet, TEvent.readK, TEvent.cancel, TEvent.publish]
    ∧ (tRun ⟨true, none⟩ (buildTrace 0 0 1 0)).published = [⟨true, none⟩]
    ∧ (⟨true, none⟩ : TransferResult) ≠ cancelledResult := by
  decide

/-- C2 amended: in every sequentially consistent interleaving exactly one
completion result is published; if some cancel is invoked before the waiter
reads the killed flag (in particular any time before the process finishes
exiting) the single result is the cancellation error, even if the process
had already begun exiting; the published result depends only on whether at
least one such cancel happened, so invoking cancel more than once has the
same effect as invoking it once; and a failed process start publishes
exactly one failure result. -/
theorem claim2_amended :
    (∀ (nr : TransferResult) (a b c d : Nat),
      (tRun nr (buildTrace a b c d)).published.length = 1)
    ∧ (∀ (nr : TransferResult) (a b c d : Nat), 0 < a + b →
      (tRun nr (buildTrace a b c d)).published = [cancelledResult])
    ∧ (∀ (nr : TransferResult) (a b c d a2 b2 c2 d2 : Nat),
      (0 < a + b ↔ 0 < a2 + b2) →
        (tRun nr (buildTrace a b c d)).published
          = (tRun nr (buildTrace a2 b2 c2 d2)).published)
    ∧ (∀ e : String, (startFailPublished e).length = 1) := by
  refine ⟨?_, ?_, ?_, ?_⟩
  · intro nr a b c d
    rw [tRun_buildTrace]
    simp
  · intro nr a b c d h
    rw [tRun_buildTrace]
    simp [h]
  · intro nr a b c d a2 b2 c2 d2 h
    rw [tRun_buildTrace, tRun_buildTrace]
    by_cases h1 : 0 < a + b
    · rw [if_pos h1, if_pos (h.mp h1)]
    · rw [if_neg h1, if_neg (fun h2 => h1 (h.mpr h2))]
  · intro e
    rfl

/-- Witness for C2 at concrete interleavings. -/
theorem claim2_witness :
    0 < 1 + 0
    ∧ (tRun ⟨true, none⟩ (buildTrace 1 0 0 0)).published = [cancelledResult]
    ∧ (tRun ⟨true, none⟩ (buildTrace 0 1 2 3)).published
        = (tRun ⟨true, none⟩ (buildTrace 2 0 0 0)).published :=
  ⟨by decide, claim2_amended.2.1 ⟨true, none⟩ 1 0 0 0 (by decide),
    claim2_amended.2.2.1 ⟨true, none⟩ 0 1 2 3 2 0 0 0 (by decide)⟩

/-! ## Claim C10. -/

/-- C10: the cursor-bounds invariant fails on the code.  Running the
reachable event sequence `c10Events` from the initial browser model leaves
the browser in normal (non-search) mode, not loading, with one visible file
but the cursor at index 2: the cursor is not below the length of the
displayed list.  On the next `enter` or `right` key the Go code evaluates
`m.visibleFiles[m.cursor]` guarded only by the list being non-empty, which
panics with an index-out-of-range error in this state. -/
theorem claim10_cursor_invariant_fails :
    (browserRun (newRemoteBrowser "/d" BrowserMode.BrowseFiles) c10Events).searchMode = false
    ∧ (browserRun (newRemoteBrowser "/d" BrowserMode.BrowseFiles) c10Events).loading = false
    ∧ (browserRun (newRemoteBrowser "/d" BrowserMode.BrowseFiles) c10Events).visibleFiles.length = 1
    ∧ (browserRun (newRemoteBrowser "/d" BrowserMode.BrowseFiles) c10Events).cursor = 2
    ∧ ¬((browserRun (newRemoteBrowser "/d" BrowserMode.BrowseFiles) c10Events).cursor
        < ((browserRun (newRemoteBrowser "/d" BrowserMode.BrowseFiles) c10Events).visibleFiles.length : Int)) := by
  decide

/-! ## Claim C6. -/

/-- Elimination for an if-then-else equation: the right-hand value is one of
the two branches. -/
theorem iteCases {P : Prop} [Decidable P] {a b c : Option BrowserCmd}
    (h : (if P then a else b) = c) : a = c ∨ b = c := by
  by_cases hP : P
  · rw [if_pos hP] at h; exact Or.inl h
  · rw [if_neg hP] at h; exact Or.inr h

set_option maxHeartbeats 3200000 in
/-- C6: in every browser state and for every message, a remote search
command is issued only for the current search query and only when that
query is at least 3 bytes long; consequently no remote search is ever
executed for a query of length less than 3. -/
theorem claim6_search_min_length :
    ∀ (m : BrowserModel) (msg : BrowserMsg) (q : String),
      (browserUpdate m msg).2 = some (BrowserCmd.runSearch q) →
        3 ≤ goLen q ∧ q = m.searchQuery := by
  intro m msg q h
  cases msg with
  | loaded files dir err =>
    cases err <;> simp [browserUpdate] at h
  | searchRes files query err =>
    by_cases hq : query ≠ m.searchQuery
    · simp [browserUpdate, hq] at h
    · cases err <;> simp [browserUpdate, hq] at h
  | debounce query =>
    simp only [browserUpdate] at h
    split at h
    · next hcond =>
      simp only [Option.some.injEq, BrowserCmd.runSearch.injEq] at h
      exact ⟨h ▸ hcond.2.1, h.symm⟩
    · simp at h
  | key k =>
    rcases hkd : k.data with _ | ⟨c, _ | ⟨c2, cs⟩⟩ <;>
      simp only [browserUpdate, hkd, apply_ite Prod.snd] at h <;>
      iterate 40 (all_goals (try (first
        | exact Option.noConfusion h
        | (injection h with h2; injection h2)
        | rcases iteCases h with h | h)))

/-- Witness for C6: a debounce tick for the settled 3-byte query issues the
search for exactly that query. -/
theorem claim6_witness :
    (browserUpdate c6State (BrowserMsg.debounce "abc")).2
        = some (BrowserCmd.runSearch "abc")
    ∧ 3 ≤ goLen "abc" ∧ "abc" = c6State.searchQuery :=
  ⟨by decide, claim6_search_min_length c6State (BrowserMsg.debounce "abc") "abc" (by decide)⟩

/-! ## Claim C7. -/

/-- Prefix test is reflexive. -/
theorem preL_refl (l : List Char) : preL l l = true := by
  induction l with
  | nil => rfl
  | cons a as ih => simp [preL, ih]

/-- A prefix is a substring. -/
theorem subL_of_preL (s p : List Char) (h : preL s p = true) : subL s p = true := by
  cases s with
  | nil =>
    cases p with
    | nil => rfl
    | cons b bs => simp [preL] at h
  | cons a as => simp [subL, h]

/-- An exact match is a prefix match. -/
theorem hasPre_of_eq (n lq : String) (h : (n == lq) = true) : goHasPre n lq = true := by
  have he : n = lq := eq_of_beq h
  subst he
  exact preL_refl n.data

/-- A prefix match is a substring match. -/
theorem contains_of_hasPre (n lq : String) (h : goHasPre n lq = true) :
    goContains n lq = true :=
  subL_of_preL n.data lq.data h

/-- The comparator of `sortSearchResults` is the strict lexicographic order
on (relevance grade, path byte length). -/
theorem srLess_iff (lq : String) (a b : RemoteFile) :
    srLess lq a b = true ↔
      (matchGrade lq a < matchGrade lq b
        ∨ (matchGrade lq a = matchGrade lq b ∧ goLen a.Path < goLen b.Path)) := by
  unfold srLess matchGrade
  by_cases e1 : (goToLower a.Name == lq) = true <;>
  by_cases e2 : (goToLower b.Name == lq) = true <;>
  by_cases s1 : goHasPre (goToLower a.Name) lq = true <;>
  by_cases s2 : goHasPre (goToLower b.Name) lq = true <;>
  by_cases c1 : goContains (goToLower a.Name) lq = true <;>
  by_cases c2 : goContains (goToLower b.Name) lq = true <;>
    first
      | exact absurd (hasPre_of_eq _ _ e1) s1
      | exact absurd (hasPre_of_eq _ _ e2) s2
      | exact absurd (contains_of_hasPre _ _ s1) c1
      | exact absurd (contains_of_hasPre _ _ s2) c2
      | (simp only [e1, e2, s1, s2, c1, c2, Bool.not_eq_true] at *
         simp [e1, e2, s1, s2, c1, c2])

/-- The comparator's not-less direction yields the claim's display order. -/
theorem rankedLE_of_srLess_false (lq : String) (a b : RemoteFile)
    (h : srLess lq b a = false) : rankedLE lq a b := by
  have hn : ¬(matchGrade lq b < matchGrade lq a
      ∨ (matchGrade lq b = matchGrade lq a ∧ goLen b.Path < goLen a.Path)) := by
    intro hcontra
    have := (srLess_iff lq b a).mpr hcontra
    rw [h] at this
    exact Bool.false_ne_true this
  unfold rankedLE
  rcases Nat.lt_trichotomy (matchGrade lq a) (matchGrade lq b) with hg | hg | hg
  · exact Or.inl hg
  · right
    refine ⟨hg, ?_⟩
    by_contra hp
    exact hn (Or.inr ⟨hg.symm, by omega⟩)
  · exact absurd (Or.inl hg) hn

/-- The comparator's less direction also yields the display order. -/
theorem rankedLE_of_srLess_true (lq : String) (a b : RemoteFile)
    (h : srLess lq a b = true) : rankedLE lq a b := by
  have := (srLess_iff lq a b).mp h
  unfold rankedLE
  rcases this with h1 | ⟨h1, h2⟩
  · exact Or.inl h1
  · exact Or.inr ⟨h1, Nat.le_of_lt h2⟩

/-- The display order is transitive. -/
theorem rankedLE_trans (lq : String) (a b c : RemoteFile)
    (h1 : rankedLE lq a b) (h2 : rankedLE lq b c) : rankedLE lq a c := by
  unfold rankedLE at *
  rcases h1 with h1 | ⟨h1a, h1b⟩ <;> rcases h2 with h2 | ⟨h2a, h2b⟩
  · exact Or.inl (Nat.lt_trans h1 h2)
  · exact Or.inl (h2a ▸ h1)
  · exact Or.inl (h1a ▸ h2)
  · exact Or.inr ⟨h1a.trans h2a, Nat.le_trans h1b h2b⟩

/-- Insertion is a permutation. -/
theorem insertSR_perm (lq : String) (x : RemoteFile) (l : List RemoteFile) :
    (insertSR lq x l).Perm (x :: l) := by
  induction l with
  | nil => exact List.Perm.refl _
  | cons y ys ih =>
    unfold insertSR
    by_cases hc : srLess lq y x = true
    · rw [if_pos hc]
      exact ((ih.cons y).trans (List.Perm.swap x y ys))
    · rw [if_neg hc]

/-- Insertion preserves sortedness for the display order. -/
theorem insertSR_pairwise (lq : String) (x : RemoteFile) (l : List RemoteFile)
    (hl : l.Pairwise (rankedLE lq)) :
    (insertSR lq x l).Pairwise (rankedLE lq) := by
  induction l with
  | nil => simp [insertSR]
  | cons y ys ih =>
    rcases List.pairwise_cons.mp hl with ⟨hy, hys⟩
    unfold insertSR
    by_cases hc : srLess lq y x = true
    · rw [if_pos hc]
      refine List.pairwise_cons.mpr ⟨?_, ih hys⟩
      intro z hz
      have hz2 := (insertSR_perm lq x ys).mem_iff.mp hz
      rcases List.mem_cons.mp hz2 with rfl | hzys
      · exact rankedLE_of_srLess_true lq y z hc
      · exact hy z hzys
    · rw [if_neg hc]
      have hcf : srLess lq y x = false := by
        revert hc
        cases srLess lq y x <;> simp
      have hxy : rankedLE lq x y := rankedLE_of_srLess_false lq x y hcf
      refine List.pairwise_cons.mpr ⟨?_, hl⟩
      intro z hz
      rcases List.mem_cons.mp hz with rfl | hzys
      · exact hxy
      · exact rankedLE_trans lq x y z hxy (hy z hzys)

/-- Sorting is a permutation. -/
theorem sortSR_perm (lq : String) (l : List RemoteFile) : (sortSR lq l).Perm l := by
  induction l with
  | nil => exact List.Perm.refl _
  | cons x xs ih =>
    exact (insertSR_perm lq x (sortSR lq xs)).trans (ih.cons x)

/-- Sorted output of the ranking sort. -/
theorem sortSR_pairwise (lq : String) (l : List RemoteFile) :
    (sortSR lq l).Pairwise (rankedLE lq) := by
  induction l with
  | nil => simp [sortSR]
  | cons x xs ih => exact insertSR_pairwise lq x (sortSR lq xs) ih

/-- C7: ranking is skipped for queries shorter than 3 bytes; otherwise the
displayed order is a permutation of the results in which exact name matches
precede prefix-only matches, prefix matches precede substring-only matches,
name-substring matches precede path-only matches, and remaining ties are
broken by shorter path first (`rankedLE` on the lower-cased query). -/
theorem claim7_ranking :
    ∀ (q : String) (files : List RemoteFile),
      (goLen q < 3 → sortSearchResultsFn q files = files)
      ∧ (sortSearchResultsFn q files).Perm files
      ∧ (3 ≤ goLen q → (sortSearchResultsFn q files).Pairwise (rankedLE (goToLower q))) := by
  intro q files
  refine ⟨?_, ?_, ?_⟩
  · intro h
    unfold sortSearchResultsFn
    rw [if_pos (by simp [h])]
  · unfold sortSearchResultsFn
    by_cases hc : (files.length = 0 || decide (goLen q < 3)) = true
    · rw [if_pos hc]
    · rw [if_neg hc]
      exact sortSR_perm _ files
  · intro h3
    unfold sortSearchResultsFn
    by_cases hc : (files.length = 0 || decide (goLen q < 3)) = true
    · rw [if_pos hc]
      simp only [Bool.or_eq_true, decide_eq_true_eq] at hc
      rcases hc with hc | hc
      · rw [List.length_eq_zero.mp hc]
        exact List.Pairwise.nil
      · omega
    · rw [if_neg hc]
      exact sortSR_pairwise _ files

/-- Witness for C7 at the spec scenario: query `log` ranks the prefix match
`logo.png` before the substring-only match `app.log`. -/
theorem claim7_witness :
    3 ≤ goLen "log"
    ∧ (sortSearchResultsFn "log" c7Files).Pairwise (rankedLE (goToLower "log"))
    ∧ sortSearchResultsFn "log" c7Files
        = [⟨"logo.png", "/srv/logo.png", false, 0⟩, ⟨"app.log", "/srv/app.log", false, 0⟩] :=
  ⟨by decide, (claim7_ranking "log" c7Files).2.2 (by decide), by decide⟩

/-! ## Claim C5. -/

/-- Lexicographic list order is asymmetric. -/
theorem ltL_asymm (a b : List Char) (h : ltL a b = true) : ltL b a = false := by
  induction a generalizing b with
  | nil =>
    cases b with
    | nil => simp [ltL] at h
    | cons c cs => simp [ltL]
  | cons x xs ih =>
    cases b with
    | nil => simp [ltL] at h
    | cons y ys =>
      unfold ltL at h ⊢
      by_cases h1 : x.toNat < y.toNat
      · rw [if_neg (by omega : ¬ y.toNat < x.toNat), if_pos h1]
      · rw [if_neg h1] at h
        by_cases h2 : y.toNat < x.toNat
        · rw [if_pos h2] at h
          exact absurd h (by simp)
        · rw [if_neg h2] at h
          rw [if_neg h2, if_neg h1]
          exact ih ys h

/-- Comparison property of the lexicographic order: anything below `a` is
below any `b` or has `b` below `a`. -/
theorem ltL_compare (a b c : List Char) (h : ltL c a = true) :
    ltL c b = true ∨ ltL b a = true := by
  induction c generalizing a b with
  | nil =>
    cases a with
    | nil => simp [ltL] at h
    | cons x xs =>
      cases b with
      | nil => right; simp [ltL]
      | cons y ys => left; simp [ltL]
  | cons z zs ih =>
    cases a with
    | nil => simp [ltL] at h
    | cons x xs =>
      cases b with
      | nil => right; simp [ltL]
      | cons y ys =>
        unfold ltL at h ⊢
        by_cases hzy : z.toNat < y.toNat
        · left; rw [if_pos hzy]
        · by_cases hyz : y.toNat < z.toNat
          · right
            by_cases hzx : z.toNat < x.toNat
            · rw [if_pos (by omega : y.toNat < x.toNat)]
            · rw [if_neg hzx] at h
              by_cases hxz : x.toNat < z.toNat
              · rw [if_pos hxz] at h
                exact absurd h (by simp)
              · rw [if_pos (by omega : y.toNat < x.toNat)]
          · by_cases hzx : z.toNat < x.toNat
            · right
              rw [if_pos (by omega : y.toNat < x.toNat)]
            · rw [if_neg hzx] at h
              by_cases hxz : x.toNat < z.toNat
              · rw [if_pos hxz] at h
                exact absurd h (by simp)
              · rw [if_neg hxz] at h
                rcases ih xs ys h with hl | hr
                · left
                  rw [if_neg hzy, if_neg hyz]
                  exact hl
                · right
                  rw [if_neg (by omega : ¬ y.toNat < x.toNat),
                      if_neg (by omega : ¬ x.toNat < y.toNat)]
                  exact hr

/-- Transitivity of the non-strict lexicographic order. -/
theorem ltL_le_trans (a b c : List Char) (h1 : ltL b a = false) (h2 : ltL c b = false) :
    ltL c a = false := by
  by_cases h : ltL c a = true
  · rcases ltL_compare a b c h with hcb | hba
    · rw [h2] at hcb
      exact absurd hcb (by simp)
    · rw [h1] at hba
      exact absurd hba (by simp)
  · revert h
    cases ltL c a <;> simp

/-- Comparator value when the left entry is the parent. -/
theorem lsLess_dd_left (a b : RemoteFile) (h : a.Name = "..") : lsLess a b = true := by
  unfold lsLess
  rw [if_pos h]

/-- Comparator value when only the right entry is the parent. -/
theorem lsLess_dd_right (a b : RemoteFile) (ha : a.Name ≠ "..") (hb : b.Name = "..") :
    lsLess a b = false := by
  unfold lsLess
  rw [if_neg ha, if_pos hb]

/-- Directories sort before files. -/
theorem lsLess_dir_file (a b : RemoteFile) (ha : a.Name ≠ "..") (hb : b.Name ≠ "..")
    (hda : a.IsDir = true) (hdb : b.IsDir = false) : lsLess a b = true := by
  unfold lsLess
  rw [if_neg ha, if_neg hb, if_pos (by rw [hda, hdb]; simp)]
  exact hda

/-- Files sort after directories. -/
theorem lsLess_file_dir (a b : RemoteFile) (ha : a.Name ≠ "..") (hb : b.Name ≠ "..")
    (hda : a.IsDir = false) (hdb : b.IsDir = true) : lsLess a b = false := by
  unfold lsLess
  rw [if_neg ha, if_neg hb, if_pos (by rw [hda, hdb]; simp)]
  exact hda

/-- Within one kind the comparator is the case-insensitive name order. -/
theorem lsLess_same (a b : RemoteFile) (ha : a.Name ≠ "..") (hb : b.Name ≠ "..")
    (h : a.IsDir = b.IsDir) :
    lsLess a b = goStrLt (goToLower a.Name) (goToLower b.Name) := by
  unfold lsLess
  rw [if_neg ha, if_neg hb, if_neg (by rw [h]; simp)]

/-- Name order from a true comparison within one kind. -/
theorem nameLE_of_lsLess_true (a b : RemoteFile) (ha : a.Name ≠ "..") (hb : b.Name ≠ "..")
    (h : a.IsDir = b.IsDir) (hc : lsLess a b = true) : nameLE a b := by
  rw [lsLess_same a b ha hb h] at hc
  unfold nameLE goStrLt
  exact ltL_asymm _ _ hc

/-- Name order from a false comparison within one kind. -/
theorem nameLE_of_lsLess_false (a b : RemoteFile) (ha : a.Name ≠ "..") (hb : b.Name ≠ "..")
    (h : a.IsDir = b.IsDir) (hc : lsLess a b = false) : nameLE b a := by
  rw [lsLess_same a b ha hb h] at hc
  unfold nameLE goStrLt
  exact hc

/-- Transitivity of the case-insensitive name order. -/
theorem nameLE_trans (a b c : RemoteFile) (h1 : nameLE a b) (h2 : nameLE b c) :
    nameLE a c := by
  unfold nameLE goStrLt at *
  exact ltL_le_trans _ _ _ h1 h2

/-- Insertion skips a leading segment of smaller entries. -/
theorem insertLS_skip (x : RemoteFile) (l r : List RemoteFile)
    (hl : ∀ y ∈ l, lsLess y x = true) :
    insertLS x (l ++ r) = l ++ insertLS x r := by
  induction l with
  | nil => rfl
  | cons y ys ih =>
    have hy := hl y (List.mem_cons_self y ys)
    simp only [List.cons_append, insertLS, List.append_eq]
    rw [if_pos hy, ih (fun z hz => hl z (List.mem_cons_of_mem y hz))]

/-- Insertion stops at the first non-smaller entry. -/
theorem insertLS_stop (x z : RemoteFile) (zs : List RemoteFile)
    (h : lsLess z x = false) :
    insertLS x (z :: zs) = x :: z :: zs := by
  unfold insertLS
  rw [if_neg (by rw [h]; simp)]

/-- Inserting a directory entry into a sorted directories-then-files list
keeps the shape, extending the directory segment. -/
theorem insertLS_dirs (x : RemoteFile) (hx : x.Name ≠ "..") (hxd : x.IsDir = true)
    (ds fs : List RemoteFile)
    (hds : ∀ e ∈ ds, e.IsDir = true ∧ e.Name ≠ "..")
    (hfs : ∀ e ∈ fs, e.IsDir = false ∧ e.Name ≠ "..")
    (sds : ds.Pairwise nameLE) :
    ∃ ds2, insertLS x (ds ++ fs) = ds2 ++ fs
      ∧ (∀ e ∈ ds2, e.IsDir = true ∧ e.Name ≠ "..")
      ∧ ds2.Pairwise nameLE
      ∧ ds2.Perm (x :: ds) := by
  induction ds with
  | nil =>
    refine ⟨[x], ?_, ?_, by simp, List.Perm.refl _⟩
    · cases fs with
      | nil => rfl
      | cons z zs =>
        have hz := hfs z (List.mem_cons_self z zs)
        simp only [List.nil_append]
        exact insertLS_stop x z zs (lsLess_file_dir z x hz.2 hx hz.1 hxd)
    · intro e he
      rw [List.mem_singleton] at he
      subst he
      exact ⟨hxd, hx⟩
  | cons y ys ih =>
    obtain ⟨hyd, hyn⟩ := hds y (List.mem_cons_self y ys)
    obtain ⟨hyLE, sys⟩ := List.pairwise_cons.mp sds
    by_cases hc : lsLess y x = true
    · obtain ⟨ds2, heq, hmem, hsort, hperm⟩ :=
        ih (fun e he => hds e (List.mem_cons_of_mem y he)) sys
      refine ⟨y :: ds2, ?_, ?_, ?_, ?_⟩
      · simp only [List.cons_append, insertLS, List.append_eq]
        rw [if_pos hc, heq]
      · intro e he
        rcases List.mem_cons.mp he with rfl | he2
        · exact ⟨hyd, hyn⟩
        · exact hmem e he2
      · refine List.pairwise_cons.mpr ⟨?_, hsort⟩
        intro z hz
        rcases List.mem_cons.mp (hperm.mem_iff.mp hz) with rfl | hzys
        · exact nameLE_of_lsLess_true y z hyn hx (by rw [hyd, hxd]) hc
        · exact hyLE z hzys
      · exact (hperm.cons y).trans (List.Perm.swap x y ys)
    · have hcf : lsLess y x = false := by
        revert hc
        cases lsLess y x <;> simp
      have hxy : nameLE x y := nameLE_of_lsLess_false y x hyn hx (by rw [hyd, hxd]) hcf
      refine ⟨x :: y :: ys, ?_, ?_, ?_, List.Perm.refl _⟩
      · simp only [List.cons_append]
        exact insertLS_stop x y (ys ++ fs) hcf
      · intro e he
        rcases List.mem_cons.mp he with rfl | he2
        · exact ⟨hxd, hx⟩
        · exact hds e he2
      · refine List.pairwise_cons.mpr ⟨?_, sds⟩
        intro z hz
        rcases List.mem_cons.mp hz with rfl | hzys
        · exact hxy
        · exact nameLE_trans x y z hxy (hyLE z hzys)

/-- Inserting a file entry into a sorted all-files list keeps it sorted. -/
theorem insertLS_files (x : RemoteFile) (hx : x.Name ≠ "..") (hxd : x.IsDir = false)
    (fs : List RemoteFile)
    (hfs : ∀ e ∈ fs, e.IsDir = false ∧ e.Name ≠ "..")
    (sfs : fs.Pairwise nameLE) :
    ∃ fs2, insertLS x fs = fs2
      ∧ (∀ e ∈ fs2, e.IsDir = false ∧ e.Name ≠ "..")
      ∧ fs2.Pairwise nameLE
      ∧ fs2.Perm (x :: fs) := by
  induction fs with
  | nil =>
    refine ⟨[x], rfl, ?_, by simp, List.Perm.refl _⟩
    intro e he
    rw [List.mem_singleton] at he
    subst he
    exact ⟨hxd, hx⟩
  | cons y ys ih =>
    obtain ⟨hyd, hyn⟩ := hfs y (List.mem_cons_self y ys)
    obtain ⟨hyLE, sys⟩ := List.pairwise_cons.mp sfs
    by_cases hc : lsLess y x = true
    · obtain ⟨fs2, heq, hmem, hsort, hperm⟩ :=
        ih (fun e he => hfs e (List.mem_cons_of_mem y he)) sys
      refine ⟨y :: fs2, ?_, ?_, ?_, ?_⟩
      · simp only [insertLS]
        rw [if_pos hc, heq]
      · intro e he
        rcases List.mem_cons.mp he with rfl | he2
        · exact ⟨hyd, hyn⟩
        · exact hmem e he2
      · refine List.pairwise_cons.mpr ⟨?_, hsort⟩
        intro z hz
        rcases List.mem_cons.mp (hperm.mem_iff.mp hz) with rfl | hzys
        · exact nameLE_of_lsLess_true y z hyn hx (by rw [hyd, hxd]) hc
        · exact hyLE z hzys
      · exact (hperm.cons y).trans (List.Perm.swap x y ys)
    · have hcf : lsLess y x = false := by
        revert hc
        cases lsLess y x <;> simp
      have hxy : nameLE x y := nameLE_of_lsLess_false y x hyn hx (by rw [hyd, hxd]) hcf
      refine ⟨x :: y :: ys, insertLS_stop x y ys hcf, ?_, ?_, List.Perm.refl _⟩
      · intro e he
        rcases List.mem_cons.mp he with rfl | he2
        · exact ⟨hxd, hx⟩
        · exact hfs e he2
      · refine List.pairwise_cons.mpr ⟨?_, sfs⟩
        intro z hz
        rcases List.mem_cons.mp hz with rfl | hzys
        · exact hxy
        · exact nameLE_trans x y z hxy (hyLE z hzys)

/-- Sorting a `..`-free list yields sorted directories followed by sorted
files, a permutation of the input. -/
theorem sortLS_split (es : List RemoteFile) (h : ∀ e ∈ es, e.Name ≠ "..") :
    ∃ ds fs, sortLS es = ds ++ fs
      ∧ (∀ e ∈ ds, e.IsDir = true ∧ e.Name ≠ "..")
      ∧ (∀ e ∈ fs, e.IsDir = false ∧ e.Name ≠ "..")
      ∧ ds.Pairwise nameLE ∧ fs.Pairwise nameLE
      ∧ (ds ++ fs).Perm es := by
  induction es with
  | nil => exact ⟨[], [], rfl, by simp, by simp, by simp, by simp, List.Perm.refl _⟩
  | cons x xs ih =>
    obtain ⟨ds, fs, heq, hd, hf, sd, sf, hp⟩ := ih (fun e he => h e (List.mem_cons_of_mem x he))
    have hx := h x (List.mem_cons_self x xs)
    by_cases hxd : x.IsDir = true
    · obtain ⟨ds2, heq2, hmem2, hsort2, hperm2⟩ := insertLS_dirs x hx hxd ds fs hd hf sd
      refine ⟨ds2, fs, ?_, hmem2, hf, hsort2, sf, ?_⟩
      · show sortLS (x :: xs) = ds2 ++ fs
        simp only [sortLS]
        rw [heq, heq2]
      · exact (hperm2.append_right fs).trans (hp.cons x)
    · have hxf : x.IsDir = false := by
        revert hxd
        cases x.IsDir <;> simp
      have hskip : insertLS x (ds ++ fs) = ds ++ insertLS x fs :=
        insertLS_skip x ds fs (fun y hy => lsLess_dir_file y x (hd y hy).2 hx (hd y hy).1 hxf)
      obtain ⟨fs2, heq2, hmem2, hsort2, hperm2⟩ := insertLS_files x hx hxf fs hf sf
      refine ⟨ds, fs2, ?_, hd, hmem2, sd, hsort2, ?_⟩
      · show sortLS (x :: xs) = ds ++ fs2
        simp only [sortLS]
        rw [heq, hskip, heq2]
      · exact (hperm2.append_left ds).trans (List.perm_middle.trans (hp.cons x))

/-- Entries parsed from `ls` output never carry the `..` name. -/
theorem lsKeep_no_dd (parsed : List RemoteFile) :
    ∀ e ∈ lsKeep parsed, e.Name ≠ ".." := by
  intro e he
  unfold lsKeep at he
  rw [List.mem_filter] at he
  have h2 := he.2
  simp only [Bool.not_eq_true', Bool.or_eq_false_iff, beq_eq_false_iff_ne, ne_eq] at h2
  exact h2.2

/-- The parent entry, when present, is placed at the very front by the
sort. -/
theorem insertLS_parent (p : RemoteFile) (hp : p.Name = "..")
    (l : List RemoteFile) (hl : ∀ e ∈ l, e.Name ≠ "..") :
    insertLS p l = p :: l := by
  cases l with
  | nil => rfl
  | cons z zs =>
    exact insertLS_stop p z zs
      (lsLess_dd_right z p (hl z (List.mem_cons_self z zs)) hp)

/-- C5: every entry list returned by `ListDirectory` is the synthetic `..`
entry (present iff the listed path is not `/`), followed by all directory
entries in case-insensitive name order, followed by all file entries in
case-insensitive name order; together the two segments are a permutation of
the parsed (non-`.`/`..`) entries. -/
theorem claim5_listing_order :
    ∀ (path : String) (parsed : List RemoteFile),
      ∃ ds fs,
        listDirectoryEntries path parsed = parentEntries path ++ (ds ++ fs)
        ∧ (∀ e ∈ ds, e.IsDir = true ∧ e.Name ≠ "..")
        ∧ (∀ e ∈ fs, e.IsDir = false ∧ e.Name ≠ "..")
        ∧ ds.Pairwise nameLE ∧ fs.Pairwise nameLE
        ∧ (ds ++ fs).Perm (lsKeep parsed)
        ∧ parentEntries path
            = (if path = "/" then [] else [⟨"..", goDir path, true, 0⟩]) := by
  intro path parsed
  obtain ⟨ds, fs, heq, hd, hf, sd, sf, hperm⟩ :=
    sortLS_split (lsKeep parsed) (lsKeep_no_dd parsed)
  refine ⟨ds, fs, ?_, hd, hf, sd, sf, hperm, rfl⟩
  unfold listDirectoryEntries parentEntries
  by_cases hp : path = "/"
  · rw [if_pos hp]
    simp only [List.nil_append]
    exact heq
  · rw [if_neg hp]
    simp only [List.cons_append, List.nil_append, sortLS, List.append_eq]
    rw [heq]
    have hnd : ∀ e ∈ ds ++ fs, e.Name ≠ ".." := by
      intro e he
      rcases List.mem_append.mp he with h1 | h2
      · exact (hd e h1).2
      · exact (hf e h2).2
    rw [insertLS_parent ⟨"..", goDir path, true, 0⟩ rfl (ds ++ fs) hnd]
